import Mathlib

set_option autoImplicit false
set_option maxRecDepth 8000

namespace SrtTranslate

/-! # Verification of the SRT translation pipeline (src/main.py)

The repository's core (src/main.py) manipulates Python `str` values.  We
embed strings as `List Char`.  Python's ASCII whitespace conventions,
`str.strip`, substring tests, `str.replace`, `re.sub` with a literal
pattern, and single-slot `str.format` are modelled explicitly below.
Loops whose index jumps by a data-dependent amount are modelled with an
explicit fuel argument that is always instantiated with a sufficient
bound, so every definition is executable by kernel reduction. -/

abbrev Str := List Char

/-- The whitespace characters recognised by Python's `str.strip` (ASCII model). -/
def isPySpace (c : Char) : Bool :=
  c == ' ' || c == '\t' || c == '\n' || c == '\r' || c == '\x0b' || c == '\x0c'

/-- Python `str.strip()` (ASCII-whitespace model). -/
def pyStrip (s : Str) : Str :=
  ((s.dropWhile isPySpace).reverse.dropWhile isPySpace).reverse

/-- Boolean string-prefix test. -/
def pfxB : Str → Str → Bool
  | [], _ => true
  | _ :: _, [] => false
  | a :: as, b :: bs => a == b && pfxB as bs

/-- Boolean substring test: Python's `needle in haystack`. -/
def occB (q : Str) : Str → Bool
  | [] => pfxB q []
  | c :: cs => pfxB q (c :: cs) || occB q cs

/-- The two structural brace characters, written via their code points. -/
def lbrace : Char := '\x7b'

def rbrace : Char := '\x7d'

/-! ## Tag-Template Extractor (src/main.py:150-171) -/

/-- Scan for the closing character of a bracketed tag: Python's non-greedy
`.*?` cannot cross a newline, so the first `close` must occur before any
`'\n'`.  Returns the remainder after the closing character. -/
def dropTag (close : Char) : Str → Option Str
  | [] => none
  | c :: cs => if c == close then some cs else if c == '\n' then none else dropTag close cs

/-- One pass of `re.sub(r'\x7b.*?\x7d|<.*?>', '', text)`: leftmost matches of
either alternative are deleted.  `fuel ≥ length` suffices. -/
def stripTagsF : Nat → Str → Str
  | 0, s => s
  | _ + 1, [] => []
  | fuel + 1, c :: cs =>
    if c == lbrace then
      match dropTag rbrace cs with
      | some rest => stripTagsF fuel rest
      | none => c :: stripTagsF fuel cs
    else if c == '<' then
      match dropTag '>' cs with
      | some rest => stripTagsF fuel rest
      | none => c :: stripTagsF fuel cs
    else c :: stripTagsF fuel cs

/-- `strip_tags` (src/main.py:150-152). -/
def strip_tags (s : Str) : Str := pyStrip (stripTagsF s.length s)

/-- Escape one character as `str.replace` of braces does. -/
def escChar (c : Char) : Str :=
  if c == lbrace then [lbrace, lbrace]
  else if c == rbrace then [rbrace, rbrace]
  else [c]

/-- `template.replace(lbrace, lbrace*2).replace(rbrace, rbrace*2)`. -/
def escBraces : Str → Str
  | [] => []
  | c :: cs => escChar c ++ escBraces cs

/-- The internal placeholder string of `create_template_and_clean_text`. -/
def placeholderStr : Str := "___TRANSLATION_PLACEHOLDER___".toList

/-- The placeholder's brace-free core, the 23-character string whose absence
from a line makes the placeholder occurrence in the template unique. -/
def placeholderCore : Str := "TRANSLATION_PLACEHOLDER".toList

/-- `re.sub(re.escape(pat), repl, s, 1)`: replace the first literal
occurrence of `pat`, or leave `s` unchanged when there is none. -/
def replaceFirst (pat repl : Str) : Str → Str
  | [] => []
  | c :: cs =>
    if pfxB pat (c :: cs) then repl ++ (c :: cs).drop pat.length
    else c :: replaceFirst pat repl cs

/-- Python `s.replace(placeholder, repl)`: all non-overlapping occurrences,
scanning left to right.  `fuel ≥ length` suffices; with fuel 0 the rest is
returned unchanged. -/
def replacePHF (repl : Str) : Nat → Str → Str
  | 0, s => s
  | _ + 1, [] => []
  | fuel + 1, c :: cs =>
    if pfxB placeholderStr (c :: cs) then
      repl ++ replacePHF repl fuel ((c :: cs).drop placeholderStr.length)
    else c :: replacePHF repl fuel cs

/-- The single substitution slot written into the template. -/
def slotStr : Str := [lbrace, rbrace]

/-- Python `template.format(arg)` with exactly one positional argument and
auto-numbered slots.  Doubled braces denote literal braces; a second
auto-numbered slot or a stray brace raises (`none`).  Named or indexed
replacement fields never occur in the templates the code builds, so they
are folded into the error case. -/
def fmtAux (arg : Str) : Bool → Str → Option Str
  | _, [] => some []
  | used, c :: cs =>
    if c == lbrace then
      match cs with
      | [] => none
      | d :: ds =>
        if d == lbrace then (fmtAux arg used ds).map (fun r => lbrace :: r)
        else if d == rbrace then
          if used then none else (fmtAux arg true ds).map (fun r => arg ++ r)
        else none
    else if c == rbrace then
      match cs with
      | [] => none
      | d :: ds => if d == rbrace then (fmtAux arg used ds).map (fun r => rbrace :: r) else none
    else (fmtAux arg used cs).map (fun r => c :: r)

/-- `template.format(arg)`. -/
def pyFormat (template arg : Str) : Option Str := fmtAux arg false template

/-- `create_template_and_clean_text` (src/main.py:154-171): returns the pair
`(clean_text, template)`. -/
def create_template_and_clean_text (line : Str) : Str × Str :=
  let clean := strip_tags line
  if clean = [] then (clean, escBraces line)
  else
    let t1 := replaceFirst clean placeholderStr line
    let t2 := escBraces t1
    (clean, replacePHF slotStr t2.length t2)

/-! ## SRT Parser (src/main.py:173-217) -/

/-- One parsed text line of a subtitle block. -/
structure PyLine where
  clean : Str
  template : Str
deriving DecidableEq

/-- One parsed SRT block (src/main.py:204-208): index, raw time line, lines. -/
structure Subtitle where
  index : Nat
  time : Str
  lines : List PyLine
deriving DecidableEq

/-- Python `content.split(backslash-n)`: split on every newline, keeping
empty pieces. -/
def splitNl : Str → List Str
  | [] => [[]]
  | c :: cs =>
    if c = '\n' then [] :: splitNl cs
    else
      match splitNl cs with
      | [] => [[c]]
      | h :: t => (c :: h) :: t

/-- Python `s.isdigit()` on the ASCII digits the SRT format uses. -/
def pyIsDigitStr (s : Str) : Bool := !s.isEmpty && s.all Char.isDigit

/-- Python `int(s)` for a digit string. -/
def digitsToNat (s : Str) : Nat := s.foldl (fun a c => a * 10 + (c.toNat - 48)) 0

/-- The SRT time-range separator. -/
def arrowStr : Str := "-->".toList

/-- The inner text-collection loop of `parse_srt` (src/main.py:193-196):
collect consecutive non-blank lines from position `i`, returning them
together with the index of the first blank line or the end of input.
`fuel ≥ lines.length - i` suffices. -/
def collectTextF (lines : List Str) : Nat → Nat → List Str × Nat
  | 0, i => ([], i)
  | fuel + 1, i =>
    if i < lines.length then
      if pyStrip (lines.getD i []) ≠ [] then
        let r := collectTextF lines fuel (i + 1)
        (lines.getD i [] :: r.1, r.2)
      else ([], i)
    else ([], i)

/-- The scanning loop of `parse_srt` (src/main.py:179-215).  Every list
access in the source is guarded by an explicit bounds check, so the loop is
modelled totally; the fuel only bounds the number of iterations and
`fuel ≥ lines.length - i` suffices because the index strictly increases. -/
def parseLoopF (lines : List Str) : Nat → Nat → List Subtitle
  | 0, _ => []
  | fuel + 1, i =>
    if i < lines.length then
      if pyIsDigitStr (pyStrip (lines.getD i [])) then
        if i + 1 < lines.length then
          if occB arrowStr (lines.getD (i + 1) []) then
            let collected := collectTextF lines (lines.length - (i + 2)) (i + 2)
            let processed := (collected.1.filter (fun l => !(pyStrip l).isEmpty)).map
              (fun raw => PyLine.mk (create_template_and_clean_text raw).1
                (create_template_and_clean_text raw).2)
            let rest := parseLoopF lines fuel (collected.2 + 1)
            if processed ≠ [] then
              { index := digitsToNat (pyStrip (lines.getD i [])),
                time := lines.getD (i + 1) [],
                lines := processed } :: rest
            else rest
          else parseLoopF lines fuel (i + 1)
        else []
      else parseLoopF lines fuel (i + 1)
    else []

/-- `parse_srt` (src/main.py:173-217). -/
def parse_srt (content : Str) : List Subtitle :=
  let lines := splitNl (pyStrip content)
  parseLoopF lines lines.length 0

/-! ## Sentence Grouper (src/main.py:219-241) -/

/-- Python `" ".join(ls)`. -/
def joinSep (sep : Str) : List Str → Str
  | [] => []
  | [x] => x
  | x :: y :: xs => x ++ sep ++ joinSep sep (y :: xs)

/-- The space-joined clean texts of an entry's lines, then stripped
(src/main.py:229). -/
def fullCleanText (sub : Subtitle) : Str :=
  pyStrip (joinSep [' '] (sub.lines.map PyLine.clean))

/-- The tuple of sentence-ending suffixes (src/main.py:226), literally as in
the source, including its duplicated dot-quote entry and the full-width
marks. -/
def sentenceEnders : List Str :=
  [".".toList, "?".toList, "!".toList, ".\"".toList, ".\"".toList,
   "？".toList, "！".toList, "。".toList]

/-- Python `s.endswith(e)`. -/
def sfxB (q s : Str) : Bool := pfxB q.reverse s.reverse

/-- `full_clean_text.endswith(sentence_enders)`. -/
def endsWithEnder (s : Str) : Bool := sentenceEnders.any (fun e => sfxB e s)

/-- An ASCII lowercase letter (the cased characters Python's `isupper`
inspects, restricted to the ASCII range the heuristic targets). -/
def isLowerA (c : Char) : Bool := 97 ≤ c.toNat && c.toNat ≤ 122

/-- An ASCII uppercase letter. -/
def isUpperA (c : Char) : Bool := 65 ≤ c.toNat && c.toNat ≤ 90

/-- Python `s.isupper()` (ASCII model): at least one cased character and no
lowercase one. -/
def pyIsUpper (s : Str) : Bool := s.any isUpperA && !s.any isLowerA

/-- The closing condition evaluated after appending an entry to the open
group (src/main.py:232-234): the entry's full clean text ends with a
sentence ender, or is non-empty all-caps, or the group reached five
entries. -/
def closeAfter (sub : Subtitle) (groupLen : Nat) : Bool :=
  endsWithEnder (fullCleanText sub) ||
    (pyIsUpper (fullCleanText sub) && !(fullCleanText sub).isEmpty) ||
    decide (5 ≤ groupLen)

/-- The grouping fold of `group_subtitles_by_sentence`. -/
def groupLoop : List Subtitle → List Subtitle → List (List Subtitle)
  | [], cur => if cur = [] then [] else [cur]
  | sub :: rest, cur =>
    let cur' := cur ++ [sub]
    if closeAfter sub cur'.length then cur' :: groupLoop rest []
    else groupLoop rest cur'

/-- `group_subtitles_by_sentence` (src/main.py:219-241). -/
def group_subtitles_by_sentence (subs : List Subtitle) : List (List Subtitle) :=
  groupLoop subs []

/-- Whether a group, as accumulated so far, satisfies the closing condition
at its last entry. -/
def isClosed (g : List Subtitle) : Bool :=
  match g.getLast? with
  | none => false
  | some sub => closeAfter sub g.length

/-! ## Batch Planner (src/main.py:44, 404-408) -/

/-- `GROUP_BATCH_SIZE` (src/main.py:44). -/
def GROUP_BATCH_SIZE : Nat := 20

/-- The slices `subtitle_groups[i : i + GROUP_BATCH_SIZE]` taken by the
`range(0, total_groups, GROUP_BATCH_SIZE)` loop (src/main.py:405-406).
`fuel ≥ length` suffices. -/
def chunksF : Nat → List (List Subtitle) → List (List (List Subtitle))
  | 0, _ => []
  | _ + 1, [] => []
  | fuel + 1, gs => gs.take GROUP_BATCH_SIZE :: chunksF fuel (gs.drop GROUP_BATCH_SIZE)

/-- The batches submitted by `translate_srt_stream`: consecutive runs of at
most `GROUP_BATCH_SIZE` groups. -/
def planBatches (gs : List (List Subtitle)) : List (List (List Subtitle)) :=
  chunksF gs.length gs

/-- The estimated character count of a batch: the total length of the
space-joined clean texts of all entries in all its groups. -/
def batchCharCount (batch : List (List Subtitle)) : Nat :=
  (batch.map (fun g => (g.map (fun sub =>
    (joinSep [' '] (sub.lines.map PyLine.clean)).length)).sum)).sum

/-- The full batching pipeline of `translate_srt_stream` up to the batch
loop (src/main.py:394-406). -/
def streamBatches (content : Str) : List (List (List Subtitle)) :=
  planBatches (group_subtitles_by_sentence (parse_srt content))

/-! ## Translation Client (src/main.py:285-379) -/

/-- `MAX_RETRIES` (src/main.py:45). -/
def MAX_RETRIES : Nat := 3

/-- `RATE_LIMIT_DELAY` (src/main.py:46). -/
def RATE_LIMIT_DELAY : Nat := 5

/-- The sentinel returned after retry exhaustion or a generic final error. -/
def failedSentinel : Str := "API_CALL_FAILED".toList

/-- The sentinel returned when the model client is not configured. -/
def configErrSentinel : Str := "API_CONFIGURATION_ERROR".toList

/-- The sentinel returned on a safety-policy rejection. -/
def safetySentinel : Str := "SAFETY_BLOCK".toList

/-- The sentinel returned on an empty model response. -/
def emptySentinel : Str := "EMPTY_RESPONSE".toList

/-- The tuple test of src/main.py:352. -/
def isFailureSentinel (r : Str) : Bool :=
  r == failedSentinel || r == configErrSentinel || r == safetySentinel || r == emptySentinel

/-- One outcome of a call to the opaque completion service: generated text,
or an exception carrying its message. -/
inductive ApiOutcome where
  | ok (text : Str)
  | err (msg : Str)

/-- The observable result of `api_call_with_retry`: the returned string, the
number of attempts made, and the sleep durations in seconds between
attempts. -/
structure RetryResult where
  result : Str
  attempts : Nat
  delays : List Nat
deriving DecidableEq

/-- The error-message fragment identifying a rate-limit failure. -/
def rateLimit429 : Str := "429".toList

/-- The error-message fragment identifying a safety-policy rejection. -/
def safetyMark : Str := "SAFETY".toList

/-- The retry loop of `api_call_with_retry` (src/main.py:292-323), with the
completion service abstracted as an oracle mapping the attempt number to an
outcome.  The fuel equals the remaining iterations of
`for attempt in range(MAX_RETRIES)`. -/
def retryLoop (oracle : Nat → ApiOutcome) : Nat → Nat → RetryResult
  | 0, _ => ⟨failedSentinel, 0, []⟩
  | fuel + 1, attempt =>
    match oracle attempt with
    | .ok text =>
      if text ≠ [] then ⟨pyStrip text, 1, []⟩ else ⟨emptySentinel, 1, []⟩
    | .err msg =>
      if occB rateLimit429 msg && decide (attempt < MAX_RETRIES - 1) then
        let r := retryLoop oracle fuel (attempt + 1)
        ⟨r.result, r.attempts + 1, RATE_LIMIT_DELAY * 2 ^ attempt :: r.delays⟩
      else if occB safetyMark msg then ⟨safetySentinel, 1, []⟩
      else if attempt = MAX_RETRIES - 1 then ⟨failedSentinel, 1, []⟩
      else
        let r := retryLoop oracle fuel (attempt + 1)
        ⟨r.result, r.attempts + 1, 2 :: r.delays⟩

/-- `api_call_with_retry` (src/main.py:285-323).  `configured` models
whether the global `model` object was created at startup. -/
def api_call_with_retry (configured : Bool) (oracle : Nat → ApiOutcome) : RetryResult :=
  if configured then retryLoop oracle MAX_RETRIES 0
  else ⟨configErrSentinel, 0, []⟩

/-- The space-joined clean text of an entry (src/main.py:339, no strip). -/
def subCleanJoined (sub : Subtitle) : Str := joinSep [' '] (sub.lines.map PyLine.clean)

/-- Python-dict insertion on an association list: update the existing key in
place, otherwise append. -/
def dictInsert : List (Nat × Str) → Nat → Str → List (Nat × Str)
  | [], k, v => [(k, v)]
  | (k', v') :: rest, k, v =>
    if k' = k then (k', v) :: rest else (k', v') :: dictInsert rest k v

/-- Python `k in d`. -/
def dictMem (m : List (Nat × Str)) (k : Nat) : Bool := m.any (fun p => p.1 == k)

/-- Python `d.get(k)` / `d[k]`. -/
def dictGet? : List (Nat × Str) → Nat → Option Str
  | [], _ => none
  | (k', v) :: rest, k => if k' = k then some v else dictGet? rest k

/-- The keys of an association-list map, in insertion order. -/
def keysOf (m : List (Nat × Str)) : List Nat := m.map Prod.fst

/-- One step of building `original_text_map` (src/main.py:341). -/
def origStep (m : List (Nat × Str)) (sub : Subtitle) : List (Nat × Str) :=
  dictInsert m sub.index (subCleanJoined sub)

/-- The `original_text_map` built while serialising the batch
(src/main.py:336-342). -/
def buildOriginalMap (batch : List (List Subtitle)) : List (Nat × Str) :=
  batch.foldl (fun m g => g.foldl origStep m) []

/-- Matching one response line against `\[(\d+)\]\s*(.*)` anchored at the
start (src/main.py:358-365): an opening bracket, one or more digits, a
closing bracket, then the rest after any whitespace run. -/
def parseRespLine (l : Str) : Option (Nat × Str) :=
  match l with
  | [] => none
  | c :: rest =>
    if c = '[' then
      let ds := rest.takeWhile Char.isDigit
      if ds = [] then none
      else
        match rest.drop ds.length with
        | [] => none
        | c2 :: rest2 =>
          if c2 = ']' then some (digitsToNat ds, rest2.dropWhile isPySpace) else none
    else none

/-- Parsing the model response into the translation map
(src/main.py:357-370): per stripped non-empty line, a matching
`[index] text` line with non-empty stripped text is inserted. -/
def parseResponse (resp : Str) : List (Nat × Str) :=
  (splitNl resp).foldl
    (fun m rawLine =>
      if pyStrip rawLine = [] then m
      else
        match parseRespLine (pyStrip rawLine) with
        | some (idx, restText) =>
          if pyStrip restText = [] then m else dictInsert m idx (pyStrip restText)
        | none => m) []

/-- One step of the missing-index fallback loop (src/main.py:373-377). -/
def fillStep (orig m : List (Nat × Str)) (sub : Subtitle) : List (Nat × Str) :=
  if dictMem m sub.index then m
  else dictInsert m sub.index ((dictGet? orig sub.index).getD [])

/-- `translate_batch_of_groups_and_parse` (src/main.py:325-379), with the
completion-service reply abstracted as the string `responseText` (the value
returned by `api_call_with_retry`). -/
def translate_batch_of_groups_and_parse (batch : List (List Subtitle)) (responseText : Str) :
    List (Nat × Str) :=
  if isFailureSentinel responseText then buildOriginalMap batch
  else
    batch.foldl (fun m g => g.foldl (fillStep (buildOriginalMap batch)) m)
      (parseResponse responseText)

/-! ## Output composition and endpoint validation (src/main.py:381-453,
503-577) -/

/-- Decimal digits of a natural number, as Python's `str(n)` renders it. -/
def natReprAux : Nat → Nat → Str → Str
  | 0, _, acc => acc
  | fuel + 1, n, acc =>
    let d := Char.ofNat (48 + n % 10)
    if n < 10 then d :: acc else natReprAux fuel (n / 10) (d :: acc)

/-- Python `str(n)` for a natural number. -/
def natRepr (n : Nat) : Str := natReprAux (n + 1) n []

/-- Python `s.replace(backslash-n, space)` (src/main.py:423). -/
def replaceNlSpace (s : Str) : Str := s.map (fun c => if c = '\n' then ' ' else c)

/-- Python `text.split()`: whitespace-separated words, no empties.
`fuel ≥ length` suffices. -/
def splitWsF : Nat → Str → List Str
  | 0, _ => []
  | fuel + 1, s =>
    let s1 := s.dropWhile isPySpace
    if s1 = [] then []
    else s1.takeWhile (fun c => !isPySpace c) ::
      splitWsF fuel (s1.dropWhile (fun c => !isPySpace c))

/-- Python `text.split()`. -/
def pySplitWs (s : Str) : List Str := splitWsF s.length s

/-- `split_long_line` (src/main.py:261-283). -/
def split_long_line (text : Str) (maxLength : Nat) : List Str :=
  if text.length ≤ maxLength then [text]
  else
    let step := fun (st : List Str × Str) (word : Str) =>
      if (st.2 ++ word).length ≤ maxLength then (st.1, st.2 ++ word ++ [' '])
      else if st.2 ≠ [] then (st.1 ++ [pyStrip st.2], word ++ [' '])
      else (st.1, word ++ [' '])
    let final := (pySplitWs text).foldl step ([], [])
    if final.2 ≠ [] then final.1 ++ [pyStrip final.2] else final.1

/-- The three display modes the output stage recognises. -/
def displayOnly : Str := "only_translated".toList

/-- The original-above-translated display mode. -/
def displayOrigAbove : Str := "original_above_translated".toList

/-- The translated-above-original display mode. -/
def displayTransAbove : Str := "translated_above_original".toList

/-- The per-entry output chunk built by `translate_srt_stream`
(src/main.py:421-453): translated-text lookup, newline flattening, optional
long-line splitting, original-text rebuild with optional font tag, template
application, and the display-mode switch.  A display mode other than the
three known ones leaves the chunk at just the index and time lines. -/
def buildChunk (sub : Subtitle) (translationMap : List (Nat × Str)) (displayMode : Str)
    (fontSize : Option Nat) (splitLongLines : Bool) (maxLineLength : Nat) : Str :=
  let tr0 := pyStrip (replaceNlSpace ((dictGet? translationMap sub.index).getD []))
  let translatedText :=
    if splitLongLines && decide (maxLineLength < tr0.length) then
      joinSep ['\n'] (split_long_line tr0 maxLineLength)
    else tr0
  let originalLines0 := sub.lines.map (fun l => (pyFormat l.template l.clean).getD [])
  let originalLines :=
    match fontSize with
    | some n =>
      if n ≠ 0 ∧ displayMode ≠ displayOnly then
        originalLines0.map (fun l =>
          ("<font size=\"".toList) ++ natRepr n ++ ("\">".toList) ++ l ++ ("</font>".toList))
      else originalLines0
    | none => originalLines0
  let originalText := joinSep ['\n'] originalLines
  let firstTemplate :=
    match sub.lines with
    | [] => slotStr
    | l :: _ => l.template
  let finalTranslated :=
    if translatedText ≠ [] then (pyFormat firstTemplate translatedText).getD [] else []
  let header := natRepr sub.index ++ ['\n'] ++ sub.time ++ ['\n']
  if displayMode = displayOnly then header ++ finalTranslated ++ ['\n', '\n']
  else if displayMode = displayOrigAbove then
    header ++ originalText ++ ['\n'] ++ finalTranslated ++ ['\n', '\n']
  else if displayMode = displayTransAbove then
    header ++ finalTranslated ++ ['\n'] ++ originalText ++ ['\n', '\n']
  else header

/-- The supported target languages (src/main.py:49-60, key set). -/
def SUPPORTED_LANGUAGES : List Str :=
  ["Chinese".toList, "English".toList, "Japanese".toList, "Korean".toList,
   "French".toList, "German".toList, "Spanish".toList, "Italian".toList,
   "Russian".toList, "Arabic".toList]

/-- The supported quality modes (src/main.py:63-67, key set). -/
def QUALITY_MODES : List Str := ["快速".toList, "标准".toList, "高质量".toList]

/-- The parameter validation both `/translate` and `/translate-stream`
perform (src/main.py:519-523 and 561-565): only the target language and the
quality mode are checked; the display mode is not inspected.  Returns an
error marker, or `none` when the request is accepted. -/
def validateRequest (displayMode targetLanguage qualityMode : Str) : Option Str :=
  if ¬ targetLanguage ∈ SUPPORTED_LANGUAGES then some ("unsupported language".toList)
  else if ¬ qualityMode ∈ QUALITY_MODES then some ("unsupported quality mode".toList)
  else none

/-! ## Concrete inputs used by counterexamples and witnesses -/

/-- The line used as the counterexample input for claim C1: it contains the
extractor's internal placeholder literally, between italics tags. -/
def c1BadLine : Str := "<i>___TRANSLATION_PLACEHOLDER___</i> Hi".toList

/-- The line used as the counterexample input for claim C6: a tag separates
the two words, so the clean text `ab` never occurs contiguously in it. -/
def c6BadLine : Str := "a\x7bx\x7db".toList

/-- The SRT file used as the counterexample input for claim C7: its only
block's only text line is a bare positioning tag, whose clean text is
empty. -/
def c7File : Str := "1\n00:00:01,000 --> 00:00:02,000\n\x7b\\an8\x7d\n".toList

/-- The SRT file used for claim C8: block 2 omits its time-range line. -/
def c8File : Str :=
  "1\n00:00:01,000 --> 00:00:02,000\nHello.\n\n2\nMissing time range\n\n3\n00:00:05,000 --> 00:00:06,000\nWorld.\n".toList

/-- The SRT file used for claim C4: two one-entry sentence groups of
fifteen clean characters each, which the planner packs into one batch. -/
def c4File : Str :=
  "1\n00:00:01,000 --> 00:00:02,000\nAaaaaaaaaaaaaa.\n\n2\n00:00:03,000 --> 00:00:04,000\nBbbbbbbbbbbbbb.\n".toList

/-- A one-group, one-entry batch used by witnesses. -/
def demoBatch : List (List Subtitle) :=
  [[⟨7, ("t".toList), [⟨("Hi.".toList), slotStr⟩]⟩]]

/-- Two entries forming one sentence group: the first line carries no
sentence ender, the second ends with a full stop. -/
def demoSubs : List Subtitle :=
  [⟨1, ("t".toList), [⟨("Hello".toList), slotStr⟩]⟩,
   ⟨2, ("t".toList), [⟨("world.".toList), slotStr⟩]⟩]

/-- An oracle whose every attempt raises an error mentioning both a
rate-limit code and a safety rejection. -/
def oracleBoth (_ : Nat) : ApiOutcome := .err ("429 SAFETY error".toList)

/-- An oracle whose every attempt raises a pure safety rejection. -/
def oracleSafety (_ : Nat) : ApiOutcome := .err ("blocked by SAFETY policy".toList)

/-- An oracle whose every attempt raises a pure rate-limit error. -/
def oracle429 (_ : Nat) : ApiOutcome := .err ("error 429: quota".toList)

/-- An oracle whose every attempt raises a generic transient error. -/
def oracleGeneric (_ : Nat) : ApiOutcome := .err ("connection reset".toList)

/-! ## Lemmas about prefix and substring tests -/

theorem pfxB_iff (q s : Str) : pfxB q s = true ↔ ∃ t, s = q ++ t := by
  induction q generalizing s with
  | nil => simp [pfxB]
  | cons a as ih =>
    cases s with
    | nil => simp [pfxB]
    | cons b bs =>
      simp only [pfxB, Bool.and_eq_true, beq_iff_eq, List.cons_append]
      constructor
      · rintro ⟨rfl, h⟩
        obtain ⟨t, rfl⟩ := (ih bs).mp h
        exact ⟨t, rfl⟩
      · rintro ⟨t, ht⟩
        injection ht with h1 h2
        exact ⟨h1.symm, (ih bs).mpr ⟨t, h2⟩⟩

theorem pfxB_nil_iff (q : Str) : pfxB q [] = true ↔ q = [] := by
  cases q <;> simp [pfxB]

theorem pfxB_self_append (q t : Str) : pfxB q (q ++ t) = true :=
  (pfxB_iff q (q ++ t)).mpr ⟨t, rfl⟩

theorem occB_iff (q s : Str) : occB q s = true ↔ ∃ x y, s = x ++ (q ++ y) := by
  induction s with
  | nil =>
    simp only [occB, pfxB_nil_iff]
    constructor
    · rintro rfl
      exact ⟨[], [], rfl⟩
    · rintro ⟨x, y, h⟩
      cases x with
      | nil =>
        cases q with
        | nil => rfl
        | cons c q => simp at h
      | cons b x => simp at h
  | cons c cs ih =>
    simp only [occB, Bool.or_eq_true, pfxB_iff]
    constructor
    · rintro (⟨t, ht⟩ | h)
      · exact ⟨[], t, by simp [ht]⟩
      · obtain ⟨x, y, rfl⟩ := ih.mp h
        exact ⟨c :: x, y, rfl⟩
    · rintro ⟨x, y, h⟩
      cases x with
      | nil => exact Or.inl ⟨y, by simpa using h⟩
      | cons b x =>
        injection h with h1 h2
        exact Or.inr (ih.mpr ⟨x, y, h2⟩)

theorem occB_nil (s : Str) : occB [] s = true := by
  cases s <;> simp [occB, pfxB]

theorem occB_append_left {q s : Str} (t : Str) (h : occB q s = true) :
    occB q (s ++ t) = true := by
  obtain ⟨x, y, rfl⟩ := (occB_iff q s).mp h
  exact (occB_iff q _).mpr ⟨x, y ++ t, by simp⟩

theorem occB_append_right {q t : Str} (s : Str) (h : occB q t = true) :
    occB q (s ++ t) = true := by
  obtain ⟨x, y, rfl⟩ := (occB_iff q t).mp h
  exact (occB_iff q _).mpr ⟨s ++ x, y, by simp⟩

theorem occB_trans {q m s : Str} (h1 : occB q m = true) (h2 : occB m s = true) :
    occB q s = true := by
  obtain ⟨u, v, rfl⟩ := (occB_iff m s).mp h2
  obtain ⟨x, y, rfl⟩ := (occB_iff q m).mp h1
  exact (occB_iff q _).mpr ⟨u ++ x, y ++ v, by simp⟩

theorem occB_cons_of_false {q : Str} {c : Char} {cs : Str}
    (h : occB q (c :: cs) = false) : occB q cs = false := by
  by_contra hcs
  simp only [occB, Bool.or_eq_false_iff] at h
  exact absurd (Bool.eq_false_iff.mp h.2) (by simpa using hcs)

/-! ## Lemmas about brace escaping -/

theorem escBraces_append : ∀ (s t : Str), escBraces (s ++ t) = escBraces s ++ escBraces t
  | [], t => rfl
  | c :: cs, t => by simp [escBraces, escBraces_append cs t]

theorem escBraces_placeholder : escBraces placeholderStr = placeholderStr := by decide

/-- A brace-free pattern that is a prefix of an escaped string is a prefix of
the original string. -/
theorem pfxB_escBraces : ∀ (L q : Str), lbrace ∉ q → rbrace ∉ q →
    pfxB q (escBraces L) = true → pfxB q L = true
  | [], q, _, _, h => by
    simpa [escBraces, pfxB_nil_iff] using h
  | c :: L, q, hl, hr, h => by
    rcases q with _ | ⟨q0, q'⟩
    · simp [pfxB]
    · by_cases hc : c = lbrace
      · subst hc
        have : escBraces (lbrace :: L) = lbrace :: lbrace :: escBraces L := by
          simp [escBraces, escChar]
        rw [this] at h
        simp only [pfxB, Bool.and_eq_true, beq_iff_eq] at h
        exact absurd (h.1 ▸ List.mem_cons_self q0 q') hl
      · by_cases hc2 : c = rbrace
        · subst hc2
          have : escBraces (rbrace :: L) = rbrace :: rbrace :: escBraces L := by
            simp [escBraces, escChar, show (rbrace == lbrace) = false by decide]
          rw [this] at h
          simp only [pfxB, Bool.and_eq_true, beq_iff_eq] at h
          exact absurd (h.1 ▸ List.mem_cons_self q0 q') hr
        · have : escBraces (c :: L) = c :: escBraces L := by
            simp [escBraces, escChar, hc, hc2]
          rw [this] at h
          simp only [pfxB, Bool.and_eq_true, beq_iff_eq] at h ⊢
          exact ⟨h.1, pfxB_escBraces L q' (fun hm => hl (List.mem_cons_of_mem _ hm))
            (fun hm => hr (List.mem_cons_of_mem _ hm)) h.2⟩

/-- A brace-free pattern that occurs in an escaped string occurs in the
original string. -/
theorem occB_escBraces : ∀ (L q : Str), lbrace ∉ q → rbrace ∉ q →
    occB q (escBraces L) = true → occB q L = true
  | [], q, _, _, h => by simpa [escBraces] using h
  | c :: L, q, hl, hr, h => by
    rcases q with _ | ⟨q0, q'⟩
    · exact occB_nil _
    · have hq0l : (q0 == lbrace) = true → False := by
        intro hb
        exact hl ((beq_iff_eq.mp hb) ▸ List.mem_cons_self q0 q')
      have hq0r : (q0 == rbrace) = true → False := by
        intro hb
        exact hr ((beq_iff_eq.mp hb) ▸ List.mem_cons_self q0 q')
      by_cases hc : c = lbrace
      · subst hc
        have he : escBraces (lbrace :: L) = lbrace :: lbrace :: escBraces L := by
          simp [escBraces, escChar]
        rw [he] at h
        simp only [occB, pfxB, Bool.or_eq_true, Bool.and_eq_true] at h
        have : occB (q0 :: q') (escBraces L) = true := by
          rcases h with ⟨hb, -⟩ | ⟨hb, -⟩ | h
          · exact absurd hb hq0l
          · exact absurd hb hq0l
          · exact h
        have := occB_escBraces L (q0 :: q') hl hr this
        simp only [occB, Bool.or_eq_true]
        exact Or.inr this
      · by_cases hc2 : c = rbrace
        · subst hc2
          have he : escBraces (rbrace :: L) = rbrace :: rbrace :: escBraces L := by
            simp [escBraces, escChar, show (rbrace == lbrace) = false by decide]
          rw [he] at h
          simp only [occB, pfxB, Bool.or_eq_true, Bool.and_eq_true] at h
          have : occB (q0 :: q') (escBraces L) = true := by
            rcases h with ⟨hb, -⟩ | ⟨hb, -⟩ | h
            · exact absurd hb hq0r
            · exact absurd hb hq0r
            · exact h
          have := occB_escBraces L (q0 :: q') hl hr this
          simp only [occB, Bool.or_eq_true]
          exact Or.inr this
        · have he : escBraces (c :: L) = c :: escBraces L := by
            simp [escBraces, escChar, hc, hc2]
          rw [he] at h
          simp only [occB, Bool.or_eq_true] at h ⊢
          rcases h with h | h
          · have : pfxB (q0 :: q') (escBraces (c :: L)) = true := by rw [he]; exact h
            exact Or.inl (pfxB_escBraces (c :: L) (q0 :: q') hl hr this)
          · exact Or.inr (occB_escBraces L (q0 :: q') hl hr h)

/-! ## Lemmas about the single-slot format parser -/

theorem fmtAux_open_open (arg : Str) (used : Bool) (t : Str) :
    fmtAux arg used (lbrace :: lbrace :: t) = (fmtAux arg used t).map (fun r => lbrace :: r) := by
  simp [fmtAux]

theorem fmtAux_close_close (arg : Str) (used : Bool) (t : Str) :
    fmtAux arg used (rbrace :: rbrace :: t) = (fmtAux arg used t).map (fun r => rbrace :: r) := by
  simp [fmtAux, show (rbrace == lbrace) = false by decide]

theorem fmtAux_slot (arg : Str) (t : Str) :
    fmtAux arg false (lbrace :: rbrace :: t) = (fmtAux arg true t).map (fun r => arg ++ r) := by
  simp [fmtAux, show (rbrace == lbrace) = false by decide]

theorem fmtAux_other (arg : Str) (used : Bool) {c : Char} (t : Str)
    (h1 : c ≠ lbrace) (h2 : c ≠ rbrace) :
    fmtAux arg used (c :: t) = (fmtAux arg used t).map (fun r => c :: r) := by
  conv_lhs => unfold fmtAux
  rw [if_neg (by simpa using h1), if_neg (by simpa using h2)]

/-- Parsing an escaped string prepended to `rest` emits the original string
and continues on `rest`, leaving the slot-used flag unchanged. -/
theorem fmtAux_escBraces (L arg : Str) (used : Bool) (rest : Str) :
    fmtAux arg used (escBraces L ++ rest) = (fmtAux arg used rest).map (fun r => L ++ r) := by
  induction L with
  | nil =>
    cases h : fmtAux arg used rest <;> simp [escBraces, h]
  | cons c L ih =>
    by_cases hc : c = lbrace
    · subst hc
      have : escBraces (lbrace :: L) ++ rest = lbrace :: lbrace :: (escBraces L ++ rest) := by
        simp [escBraces, escChar]
      rw [this, fmtAux_open_open, ih]
      cases h : fmtAux arg used rest <;> simp
    · by_cases hc2 : c = rbrace
      · subst hc2
        have : escBraces (rbrace :: L) ++ rest = rbrace :: rbrace :: (escBraces L ++ rest) := by
          simp [escBraces, escChar, show (rbrace == lbrace) = false by decide]
        rw [this, fmtAux_close_close, ih]
        cases h : fmtAux arg used rest <;> simp
      · have : escBraces (c :: L) ++ rest = c :: (escBraces L ++ rest) := by
          simp [escBraces, escChar, hc, hc2]
        rw [this, fmtAux_other arg used _ hc hc2, ih]
        cases h : fmtAux arg used rest <;> simp

theorem fmtAux_escBraces_nil (L arg : Str) (used : Bool) :
    fmtAux arg used (escBraces L) = some L := by
  have := fmtAux_escBraces L arg used []
  simpa [fmtAux] using this

/-! ## Lemmas about literal first-occurrence replacement -/

theorem replaceFirst_no_occ (pat repl : Str) : ∀ (s : Str), occB pat s = false →
    replaceFirst pat repl s = s
  | [], _ => rfl
  | c :: cs, h => by
    have hp : pfxB pat (c :: cs) = false := by
      simp only [occB, Bool.or_eq_false_iff] at h
      exact h.1
    have hcs : occB pat cs = false := occB_cons_of_false h
    simp [replaceFirst, hp, replaceFirst_no_occ pat repl cs hcs]

theorem replaceFirst_occ (pat : Str) (hpat : pat ≠ []) :
    ∀ (s : Str), occB pat s = true →
      ∃ p t, s = p ++ (pat ++ t) ∧ ∀ repl, replaceFirst pat repl s = p ++ (repl ++ t)
  | [], h => by
    rcases pat with _ | ⟨a, pat⟩
    · exact absurd rfl hpat
    · simp [occB, pfxB] at h
  | c :: cs, h => by
    by_cases hp : pfxB pat (c :: cs) = true
    · obtain ⟨t, ht⟩ := (pfxB_iff pat (c :: cs)).mp hp
      refine ⟨[], t, by simpa using ht, ?_⟩
      intro repl
      simp only [replaceFirst, hp, if_true, List.nil_append]
      rw [ht, List.drop_left]
    · have hcs : occB pat cs = true := by
        simp only [occB, Bool.or_eq_true] at h
        rcases h with h | h
        · exact absurd h hp
        · exact h
      obtain ⟨p, t, hs, hr⟩ := replaceFirst_occ pat hpat cs hcs
      refine ⟨c :: p, t, by simp [hs], ?_⟩
      intro repl
      simp [replaceFirst, hp, hr repl]

/-! ## Uniqueness of the placeholder occurrence in the template

`placeholderStr` has no border longer than three characters, and its core
`placeholderCore` occurs in every sufficiently long prefix or suffix of it.
These finite facts, checked by `decide`, make the placeholder occurrence
produced by `replaceFirst` the unique one in the escaped template whenever
the surrounding text does not contain the core. -/

theorem placeholder_len : placeholderStr.length = 29 := by decide

theorem core_in_placeholder : occB placeholderCore placeholderStr = true := by decide

theorem placeholder_no_mid_border :
    ∀ m : Nat, m < 26 → 1 ≤ m →
      placeholderStr.take (29 - m) ≠ placeholderStr.drop m := by decide

theorem core_in_placeholder_take :
    ∀ m : Nat, m < 30 → 26 ≤ m → occB placeholderCore (placeholderStr.take m) = true := by decide

theorem core_in_placeholder_drop :
    ∀ k : Nat, k < 4 → occB placeholderCore (placeholderStr.drop k) = true := by decide

/-- If `placeholder ++ U = M ++ placeholder ++ V` then either the two
occurrences coincide (`M = []`) or the core occurs both in `M` and in `U`. -/
theorem ph_split (M U V : Str)
    (h : placeholderStr ++ U = M ++ (placeholderStr ++ V)) :
    M = [] ∨ (occB placeholderCore M = true ∧ occB placeholderCore U = true) := by
  rcases List.append_eq_append_iff.mp h with ⟨a', hM, hU⟩ | ⟨c', hPH, hV⟩
  · -- M = placeholder ++ a', U = a' ++ (placeholder ++ V)
    refine Or.inr ⟨?_, ?_⟩
    · rw [hM]
      exact occB_append_left _ core_in_placeholder
    · rw [hU]
      exact occB_append_right _ (occB_append_left _ core_in_placeholder)
  · -- placeholder = M ++ c', placeholder ++ V = c' ++ U
    have hm29 : M.length ≤ 29 := by
      have := congrArg List.length hPH
      simp only [placeholder_len, List.length_append] at this
      omega
    have hc'len : c'.length = 29 - M.length := by
      have := congrArg List.length hPH
      simp only [placeholder_len, List.length_append] at this
      omega
    have hMtake : M = placeholderStr.take M.length := by
      rw [hPH, List.take_left]
    have hc'drop : c' = placeholderStr.drop M.length := by
      rw [hPH, List.drop_left]
    have hper : placeholderStr.take (29 - M.length) = c' := by
      have h1 := congrArg (List.take (29 - M.length)) hV
      rw [List.take_append_of_le_length (by rw [placeholder_len]; omega),
        List.take_left' hc'len] at h1
      exact h1
    rcases Nat.eq_zero_or_pos M.length with hm0 | hm1
    · exact Or.inl (List.eq_nil_of_length_eq_zero hm0)
    · by_cases hm26 : 26 ≤ M.length
      · refine Or.inr ⟨?_, ?_⟩
        · rw [hMtake]
          exact core_in_placeholder_take M.length (by omega) hm26
        · have hU : U = placeholderStr.drop (29 - M.length) ++ V := by
            have h1 := congrArg (List.drop (29 - M.length)) hV
            rw [List.drop_append_of_le_length (by rw [placeholder_len]; omega),
              List.drop_left' hc'len] at h1
            exact h1.symm
          rw [hU]
          exact occB_append_left _ (core_in_placeholder_drop (29 - M.length) (by omega))
      · exfalso
        exact placeholder_no_mid_border M.length (by omega) (by omega)
          (by rw [hper, hc'drop])

/-- In `A ++ placeholder ++ B` with core-free `A` and `B`, the placeholder
occurs exactly once, at offset `A.length`. -/
theorem ph_unique (A B X Y : Str)
    (hA : occB placeholderCore A = false) (hB : occB placeholderCore B = false)
    (h : A ++ (placeholderStr ++ B) = X ++ (placeholderStr ++ Y)) : X = A ∧ Y = B := by
  rcases List.append_eq_append_iff.mp h with ⟨M, hX, h2⟩ | ⟨M, hA2, h2⟩
  · -- X = A ++ M, placeholder ++ B = M ++ (placeholder ++ Y)
    rcases ph_split M B Y h2 with hM0 | ⟨-, hcb⟩
    · subst hM0
      rw [List.append_nil] at hX
      refine ⟨hX, ?_⟩
      rw [List.nil_append] at h2
      exact (List.append_cancel_left h2).symm
    · rw [hcb] at hB
      cases hB
  · -- A = X ++ M, placeholder ++ Y = M ++ (placeholder ++ B)
    rcases ph_split M Y B h2 with hM0 | ⟨hcm, -⟩
    · subst hM0
      rw [List.append_nil] at hA2
      refine ⟨hA2.symm, ?_⟩
      rw [List.nil_append] at h2
      exact List.append_cancel_left h2
    · exfalso
      have : occB placeholderCore A = true := by
        rw [hA2]
        exact occB_append_right _ hcm
      rw [this] at hA
      cases hA

/-! ## Lemmas about placeholder replacement in the escaped template -/

theorem replacePHF_no_occ (repl : Str) : ∀ (f : Nat) (s : Str),
    occB placeholderStr s = false → replacePHF repl f s = s
  | 0, _, _ => rfl
  | _ + 1, [], _ => rfl
  | f + 1, c :: cs, h => by
    have hp : pfxB placeholderStr (c :: cs) = false := by
      simp only [occB, Bool.or_eq_false_iff] at h
      exact h.1
    simp [replacePHF, hp, replacePHF_no_occ repl f cs (occB_cons_of_false h)]

theorem replacePHF_scan (repl : Str) : ∀ (A t : Str) (f : Nat),
    A.length ≤ f →
    (∀ i, i < A.length → pfxB placeholderStr ((A ++ t).drop i) = false) →
    replacePHF repl f (A ++ t) = A ++ replacePHF repl (f - A.length) t := by
  intro A
  induction A with
  | nil => intro t f _ _; simp
  | cons a A ih =>
    intro t f hf hscan
    obtain ⟨f', rfl⟩ : ∃ f', f = f' + 1 := by
      have h1 : 1 ≤ f := by
        simp only [List.length_cons] at hf
        omega
      exact ⟨f - 1, by omega⟩
    have h0 : pfxB placeholderStr (a :: (A ++ t)) = false := by
      have := hscan 0 (by simp)
      simpa using this
    have hstep : replacePHF repl (f' + 1) (a :: (A ++ t)) = a :: replacePHF repl f' (A ++ t) := by
      conv_lhs => unfold replacePHF
      rw [if_neg (by simp [h0])]
    rw [List.cons_append, hstep, ih t f' (by simp only [List.length_cons] at hf; omega) (fun i hi => by
      have := hscan (i + 1) (by simp only [List.length_cons]; omega)
      simpa using this)]
    simp [Nat.succ_sub_succ]

theorem replacePHF_match (repl : Str) (f : Nat) : ∀ (s : Str),
    pfxB placeholderStr s = true →
    replacePHF repl (f + 1) s = repl ++ replacePHF repl f (s.drop placeholderStr.length)
  | [], h => by
    exact absurd ((pfxB_nil_iff placeholderStr).mp h) (by decide)
  | c :: cs, h => by
    simp [replacePHF, h]

/-- Replacing the placeholder in `escA ++ placeholder ++ escB` with core-free
`A`, `B` hits exactly the inserted occurrence. -/
theorem replacePHF_insert (repl A B : Str) (f : Nat)
    (hA : occB placeholderCore A = false) (hB : occB placeholderCore B = false)
    (hf : (A ++ (placeholderStr ++ B)).length ≤ f) :
    replacePHF repl f (A ++ (placeholderStr ++ B)) = A ++ (repl ++ B) := by
  have hscan : ∀ i, i < A.length →
      pfxB placeholderStr ((A ++ (placeholderStr ++ B)).drop i) = false := by
    intro i hi
    by_contra hp
    have hp' : pfxB placeholderStr ((A ++ (placeholderStr ++ B)).drop i) = true := by
      simpa using hp
    obtain ⟨t, ht⟩ := (pfxB_iff _ _).mp hp'
    have hS : A ++ (placeholderStr ++ B) =
        (A ++ (placeholderStr ++ B)).take i ++ (placeholderStr ++ t) := by
      conv_lhs => rw [← List.take_append_drop i (A ++ (placeholderStr ++ B))]
      rw [ht]
    have hXA := (ph_unique A B _ t hA hB hS).1
    have hlen := congrArg List.length hXA
    rw [List.length_take] at hlen
    have htot : i ≤ (A ++ (placeholderStr ++ B)).length := by
      have : A.length ≤ (A ++ (placeholderStr ++ B)).length := by simp
      omega
    omega
  have hAf : A.length ≤ f := by
    have : A.length ≤ (A ++ (placeholderStr ++ B)).length := by simp
    omega
  rw [replacePHF_scan repl A (placeholderStr ++ B) f hAf hscan]
  have hrest : 29 + B.length ≤ f - A.length := by
    simp only [List.length_append, placeholder_len] at hf
    omega
  obtain ⟨f', hf'⟩ : ∃ f', f - A.length = f' + 1 := ⟨f - A.length - 1, by omega⟩
  rw [hf', replacePHF_match repl f' (placeholderStr ++ B) (pfxB_self_append _ _),
    List.drop_left]
  rw [replacePHF_no_occ repl f' B]
  by_contra hocc
  have : occB placeholderCore B = true :=
    occB_trans core_in_placeholder (by simpa using hocc)
  rw [this] at hB
  cases hB

/-! ## The round-trip law for the tag-template extractor -/

/-- Core technical lemma: when the clean text is non-empty and occurs in the
line, the produced template consists of the escaped prefix, one slot and the
escaped suffix of the first occurrence, so formatting any string places it
exactly there. -/
theorem template_slot (line : Str) (h : occB placeholderCore line = false)
    (hne : strip_tags line ≠ []) (hocc : occB (strip_tags line) line = true) :
    ∃ p t, line = p ++ (strip_tags line ++ t) ∧
      (∀ repl, replaceFirst (strip_tags line) repl line = p ++ (repl ++ t)) ∧
      ∀ s₀, pyFormat (create_template_and_clean_text line).2 s₀ = some (p ++ (s₀ ++ t)) := by
  obtain ⟨p, t, hline, hrfA⟩ := replaceFirst_occ (strip_tags line) hne line hocc
  have hrf := hrfA placeholderStr
  refine ⟨p, t, hline, hrfA, ?_⟩
  intro s₀
  have hcp : occB placeholderCore p = false := by
    by_contra hc
    have : occB placeholderCore line = true := by
      rw [hline]
      exact occB_append_left _ (by simpa using hc)
    rw [this] at h
    cases h
  have hct : occB placeholderCore t = false := by
    by_contra hc
    have : occB placeholderCore line = true := by
      rw [hline]
      exact occB_append_right _ (occB_append_right _ (by simpa using hc))
    rw [this] at h
    cases h
  have hcep : occB placeholderCore (escBraces p) = false := by
    by_contra hc
    have := occB_escBraces p placeholderCore (by decide) (by decide) (by simpa using hc)
    rw [this] at hcp
    cases hcp
  have hcet : occB placeholderCore (escBraces t) = false := by
    by_contra hc
    have := occB_escBraces t placeholderCore (by decide) (by decide) (by simpa using hc)
    rw [this] at hct
    cases hct
  have htmpl : (create_template_and_clean_text line).2 =
      escBraces p ++ (slotStr ++ escBraces t) := by
    simp only [create_template_and_clean_text]
    rw [if_neg hne, hrf, escBraces_append, escBraces_append, escBraces_placeholder]
    exact replacePHF_insert slotStr (escBraces p) (escBraces t) _ hcep hcet (le_refl _)
  rw [htmpl]
  unfold pyFormat
  rw [fmtAux_escBraces]
  have hslot : slotStr ++ escBraces t = lbrace :: rbrace :: escBraces t := rfl
  rw [hslot, fmtAux_slot, fmtAux_escBraces_nil]
  rfl

/-- Both components of `create_template_and_clean_text` expose the clean text. -/
theorem create_template_fst (line : Str) :
    (create_template_and_clean_text line).1 = strip_tags line := by
  simp only [create_template_and_clean_text]
  split <;> rfl

/-- A line in which the clean text is not found keeps its escaped form with no
slot; a line with empty clean text likewise. -/
theorem create_template_esc_of_no_occ (line : Str)
    (h : occB placeholderCore line = false)
    (hocc : occB (strip_tags line) line = false) :
    (create_template_and_clean_text line).2 = escBraces line := by
  by_cases hne : strip_tags line = []
  · simp only [create_template_and_clean_text]
    rw [if_pos hne]
  · simp only [create_template_and_clean_text]
    rw [if_neg hne, replaceFirst_no_occ _ _ _ hocc]
    have hnoph : occB placeholderStr (escBraces line) = false := by
      by_contra hc
      have h1 := occB_escBraces line placeholderStr (by decide) (by decide) (by simpa using hc)
      have h2 := occB_trans core_in_placeholder h1
      rw [h2] at h
      cases h
    exact replacePHF_no_occ slotStr _ _ hnoph

/-- C1 (counterexample): for the input line
`<i>___TRANSLATION_PLACEHOLDER___</i> Hi`, substituting the clean text back
into the format template does not reproduce the original line: the clean
text contains the placeholder, the placeholder replacement turns the literal
placeholder inside the tags into the slot, and rehydration yields
`<i>___TRANSLATION_PLACEHOLDER___ Hi</i> Hi`. -/
theorem claim_C1_counterexample :
    pyFormat (create_template_and_clean_text c1BadLine).2
      (create_template_and_clean_text c1BadLine).1 ≠ some c1BadLine := by
  decide

/-- C1 (amended): for every input line that does not contain the internal
placeholder's core `TRANSLATION_PLACEHOLDER`, `create_template_and_clean_text`
produces a clean text and a format template such that substituting the clean
text back into the template via single-slot `str.format` reproduces the
original line exactly (round-trip law). -/
theorem claim_C1_roundtrip (line : Str)
    (h : occB placeholderCore line = false) :
    pyFormat (create_template_and_clean_text line).2
      (create_template_and_clean_text line).1 = some line := by
  rw [create_template_fst]
  by_cases hne : strip_tags line = []
  · have htmpl : (create_template_and_clean_text line).2 = escBraces line := by
      simp only [create_template_and_clean_text]
      rw [if_pos hne]
    rw [htmpl]
    exact fmtAux_escBraces_nil line _ false
  · by_cases hocc : occB (strip_tags line) line = true
    · obtain ⟨p, t, hline, -, hfmt⟩ := template_slot line h hne hocc
      rw [hfmt (strip_tags line), ← hline]
    · rw [create_template_esc_of_no_occ line h (by simpa using hocc)]
      exact fmtAux_escBraces_nil line _ false

/-- C1 (witness): the round-trip law instantiated at the concrete tagged line
from the specification's example. -/
theorem claim_C1_witness :
    occB placeholderCore ("\x7b\\an8\x7dHello".toList) = false ∧
    pyFormat (create_template_and_clean_text ("\x7b\\an8\x7dHello".toList)).2
      (create_template_and_clean_text ("\x7b\\an8\x7dHello".toList)).1 =
      some ("\x7b\\an8\x7dHello".toList) :=
  ⟨by decide, claim_C1_roundtrip _ (by decide)⟩

/-- C6 (counterexample): for the input line `a{x}b` the clean text is `ab`,
which does not occur contiguously in the line, so the template has no slot:
rehydrating with `Z` returns the original line and `Z` appears nowhere in the
result, contradicting the claim that every string is placed exactly where the
clean text was. -/
theorem claim_C6_counterexample :
    pyFormat (create_template_and_clean_text c6BadLine).2 ("Z".toList) = some c6BadLine ∧
    occB ("Z".toList) c6BadLine = false := by
  decide

/-- C6 (amended): whenever the line is free of the placeholder core and its
clean text is non-empty and occurs contiguously in the line, rehydrating the
template with any string `s` succeeds and yields the line with its first
occurrence of the clean text replaced by `s`; in particular the input line
with an `an8` tag yields clean text `Hello`, and rehydrating with `Bonjour`
reproduces the tag followed by `Bonjour`. -/
theorem claim_C6_rehydration :
    (∀ (line s : Str), occB placeholderCore line = false → strip_tags line ≠ [] →
      occB (strip_tags line) line = true →
      pyFormat (create_template_and_clean_text line).2 s =
        some (replaceFirst (strip_tags line) s line)) ∧
    (create_template_and_clean_text ("\x7b\\an8\x7dHello".toList)).1 = ("Hello".toList) ∧
    pyFormat (create_template_and_clean_text ("\x7b\\an8\x7dHello".toList)).2 ("Bonjour".toList) =
      some ("\x7b\\an8\x7dBonjour".toList) := by
  refine ⟨?_, by decide, by decide⟩
  intro line s h hne hocc
  obtain ⟨p, t, hline, hrf, hfmt⟩ := template_slot line h hne hocc
  rw [hfmt s, hrf s]

/-- C6 (witness): the slot-placement statement instantiated at the tagged
example line and the translation `Bonjour`. -/
theorem claim_C6_witness :
    pyFormat (create_template_and_clean_text ("\x7b\\an8\x7dHello".toList)).2 ("Bonjour".toList) =
      some (replaceFirst (strip_tags ("\x7b\\an8\x7dHello".toList)) ("Bonjour".toList)
        ("\x7b\\an8\x7dHello".toList)) :=
  claim_C6_rehydration.1 _ _ (by decide) (by decide) (by decide)

/-! ## Parser theorems (claims C7, C8) -/

/-- Every entry emitted by the parsing loop has at least one text line: the
`if processed_lines:` guard only tests that the list of processed lines is
non-empty, not that any clean text is non-empty. -/
theorem parseLoopF_lines_ne (lines : List Str) :
    ∀ (fuel i : Nat) (e : Subtitle), e ∈ parseLoopF lines fuel i → e.lines ≠ [] := by
  intro fuel
  induction fuel with
  | zero => intro i e he; simp [parseLoopF] at he
  | succ f ih =>
    intro i e he
    simp only [parseLoopF] at he
    split_ifs at he with h1 h2 h3 h4 h5
    · rcases List.mem_cons.mp he with rfl | hmem
      · exact h5
      · exact ih _ e hmem
    · exact ih _ e he
    · exact ih _ e he
    · simp at he
    · exact ih _ e he
    · simp at he

/-- C7 (counterexample): the SRT file whose only block's only text line is
the bare tag `{\an8}` is not dropped by `parse_srt`: it yields one entry
whose single line has empty clean text, contradicting the claim that blocks
whose lines all strip to empty are dropped. -/
theorem claim_C7_counterexample :
    (parse_srt c7File).map (fun e => e.lines.map PyLine.clean) = [[[]]] ∧
    parse_srt c7File ≠ [] := by
  decide

/-- C7 (amended): `parse_srt` drops exactly the blocks with no non-blank
text lines: every returned entry has a non-empty list of lines, but a line
whose clean text is empty after tag stripping is kept. -/
theorem claim_C7_kept_blocks (content : Str) :
    ∀ e ∈ parse_srt content, e.lines ≠ [] := by
  intro e he
  simp only [parse_srt] at he
  exact parseLoopF_lines_ne _ _ _ e he

/-- C7 (witness): the amended statement at the counterexample file, whose
returned entry indeed has one (empty-clean) line. -/
theorem claim_C7_witness :
    (⟨1, ("00:00:01,000 --> 00:00:02,000".toList),
      [⟨[], [lbrace, lbrace, '\\', 'a', 'n', '8', rbrace, rbrace]⟩]⟩ : Subtitle).lines ≠ [] :=
  claim_C7_kept_blocks c7File _ (by decide)

/-- C8: a block whose line after the index lacks the separator `-->` is
skipped with scanning resuming at that very line (the loop `continue`s after
only the index increment), and a file whose second block omits the
time-range line still yields blocks 1 and 3, parsed correctly.  The
embedding is total: every list access in the source loop is guarded by a
bounds check, so no input raises. -/
theorem claim_C8_malformed_block :
    (∀ (lines : List Str) (fuel i : Nat),
      i + 1 < lines.length →
      pyIsDigitStr (pyStrip (lines.getD i [])) = true →
      occB arrowStr (lines.getD (i + 1) []) = false →
      parseLoopF lines (fuel + 1) i = parseLoopF lines fuel (i + 1)) ∧
    parse_srt c8File =
      [⟨1, ("00:00:01,000 --> 00:00:02,000".toList), [⟨("Hello.".toList), slotStr⟩]⟩,
       ⟨3, ("00:00:05,000 --> 00:00:06,000".toList), [⟨("World.".toList), slotStr⟩]⟩] := by
  constructor
  · intro lines fuel i hlt hdig harr
    conv_lhs => unfold parseLoopF
    rw [if_pos (show i < lines.length by omega), if_pos hdig, if_pos hlt,
      if_neg (show ¬ occB arrowStr (lines.getD (i + 1) []) = true by simpa using harr)]
  · decide

/-- C8 (witness): the skip step applied at a concrete two-line input whose
first line is an index and whose second line lacks the separator. -/
theorem claim_C8_witness :
    parseLoopF [("2".toList), ("no separator here".toList)] 5 0 =
      parseLoopF [("2".toList), ("no separator here".toList)] 4 1 :=
  claim_C8_malformed_block.1 _ 4 0 (by decide) (by decide) (by decide)

/-! ## Sentence-grouper theorems (claim C5) -/

theorem isClosed_concat (l : List Subtitle) (a : Subtitle) :
    isClosed (l ++ [a]) = closeAfter a (l.length + 1) := by
  simp [isClosed, List.getLast?_concat]

/-- The grouping fold: joined output restores the input after the open
group, every emitted group is a non-empty run of at most five entries,
every group but the last satisfies the closing condition at its last entry,
and no group satisfies it at any earlier entry. -/
theorem groupLoop_spec (subs : List Subtitle) : ∀ (cur : List Subtitle),
    cur.length ≤ 4 →
    (∀ k, 0 < k → k ≤ cur.length → isClosed (cur.take k) = false) →
    (groupLoop subs cur).flatten = cur ++ subs ∧
    (∀ g ∈ groupLoop subs cur, g ≠ [] ∧ g.length ≤ 5) ∧
    (∀ g ∈ (groupLoop subs cur).dropLast, isClosed g = true) ∧
    (∀ g ∈ groupLoop subs cur, ∀ k, 0 < k → k < g.length → isClosed (g.take k) = false) := by
  induction subs with
  | nil =>
    intro cur hlen hpf
    by_cases hc : cur = []
    · subst hc
      simp [groupLoop]
    · simp only [groupLoop, if_neg hc]
      refine ⟨by simp, ?_, ?_, ?_⟩
      · intro g hg
        rcases List.mem_singleton.mp hg with rfl
        exact ⟨hc, by omega⟩
      · intro g hg
        simp [List.dropLast] at hg
      · intro g hg k hk1 hk2
        rcases List.mem_singleton.mp hg with rfl
        exact hpf k hk1 (by omega)
  | cons sub rest ih =>
    intro cur hlen hpf
    by_cases hcl : closeAfter sub (cur ++ [sub]).length = true
    · have hstep : groupLoop (sub :: rest) cur = (cur ++ [sub]) :: groupLoop rest [] := by
        simp only [groupLoop, hcl, if_true]
      obtain ⟨ihj, ihne, ihcl, ihpf⟩ := ih [] (by simp) (by intro k h1 h2; simp at h1 h2; omega)
      rw [hstep]
      refine ⟨by simp [ihj], ?_, ?_, ?_⟩
      · intro g hg
        rcases List.mem_cons.mp hg with rfl | hmem
        · refine ⟨by simp, ?_⟩
          simp only [List.length_append, List.length_cons, List.length_nil]
          omega
        · exact ihne g hmem
      · intro g hg
        cases hL : groupLoop rest [] with
        | nil =>
          rw [hL] at hg
          simp [List.dropLast] at hg
        | cons b L' =>
          rw [hL] at hg
          simp only [List.dropLast] at hg
          rcases List.mem_cons.mp hg with rfl | hmem
          · rw [isClosed_concat]
            simpa using hcl
          · apply ihcl
            rw [hL]
            simpa [List.dropLast] using hmem
      · intro g hg k hk1 hk2
        rcases List.mem_cons.mp hg with rfl | hmem
        · have hk3 : k ≤ cur.length := by
            simp only [List.length_append, List.length_cons, List.length_nil] at hk2
            omega
          rw [List.take_append_of_le_length hk3]
          exact hpf k hk1 hk3
        · exact ihpf g hmem k hk1 hk2
    · have hstep : groupLoop (sub :: rest) cur = groupLoop rest (cur ++ [sub]) := by
        simp only [groupLoop]
        rw [if_neg hcl]
      have hcl' : closeAfter sub (cur ++ [sub]).length = false := by
        simpa using hcl
      have hlen' : (cur ++ [sub]).length ≤ 4 := by
        have := hcl'
        simp only [closeAfter, Bool.or_eq_false_iff, decide_eq_false_iff_not] at this
        simp only [List.length_append, List.length_cons, List.length_nil] at this ⊢
        omega
      have hpf' : ∀ k, 0 < k → k ≤ (cur ++ [sub]).length →
          isClosed ((cur ++ [sub]).take k) = false := by
        intro k hk1 hk2
        simp only [List.length_append, List.length_cons, List.length_nil] at hk2
        by_cases hk3 : k ≤ cur.length
        · rw [List.take_append_of_le_length hk3]
          exact hpf k hk1 hk3
        · have : k = cur.length + 1 := by omega
          subst this
          rw [show cur.length + 1 = (cur ++ [sub]).length by simp, List.take_length,
            isClosed_concat]
          simpa using hcl'
      obtain ⟨ihj, ihne, ihcl, ihpf⟩ := ih (cur ++ [sub]) hlen' hpf'
      rw [hstep]
      exact ⟨by simp [ihj], ihne, ihcl, ihpf⟩

/-- C5: `group_subtitles_by_sentence` is an order-preserving partition —
joining the groups restores the input — in which every group is non-empty
with at most five entries; a group is closed exactly when its last entry's
space-joined clean text ends with a sentence ender, or is non-empty
all-caps, or the group has just reached five entries (no group satisfies
the condition at an earlier entry), and the remaining entries form the
final group, which alone may be unclosed. -/
theorem claim_C5_grouping (subs : List Subtitle) :
    (group_subtitles_by_sentence subs).flatten = subs ∧
    (∀ g ∈ group_subtitles_by_sentence subs, g ≠ [] ∧ g.length ≤ 5) ∧
    (∀ g ∈ (group_subtitles_by_sentence subs).dropLast, isClosed g = true) ∧
    (∀ g ∈ group_subtitles_by_sentence subs, ∀ k, 0 < k → k < g.length →
      isClosed (g.take k) = false) := by
  have := groupLoop_spec subs [] (by simp) (by intro k h1 h2; simp at h2; omega)
  simpa [group_subtitles_by_sentence] using this

/-- C5 (witness): on a concrete two-entry input forming one group, the
group is exactly the input, and the closing condition fails at its first
entry while the whole (final) group carries both entries. -/
theorem claim_C5_witness :
    (group_subtitles_by_sentence demoSubs).flatten = demoSubs ∧
    isClosed ([⟨1, ("t".toList), [⟨("Hello".toList), slotStr⟩]⟩,
      ⟨2, ("t".toList), [⟨("world.".toList), slotStr⟩]⟩].take 1) = false :=
  ⟨(claim_C5_grouping demoSubs).1,
    (claim_C5_grouping demoSubs).2.2.2 _ (by decide) 1 (by decide) (by decide)⟩

/-! ## Batch-planner theorems (claim C4) -/

theorem chunksF_nil : ∀ f, chunksF f [] = []
  | 0 => rfl
  | _ + 1 => rfl

theorem chunksF_spec : ∀ (f : Nat) (gs : List (List Subtitle)), gs.length ≤ f →
    (chunksF f gs).flatten = gs ∧
    (∀ b ∈ chunksF f gs, b ≠ [] ∧ b.length ≤ GROUP_BATCH_SIZE) ∧
    (∀ b ∈ (chunksF f gs).dropLast, b.length = GROUP_BATCH_SIZE) := by
  intro f
  induction f with
  | zero =>
    intro gs hgs
    have : gs = [] := List.eq_nil_of_length_eq_zero (by omega)
    subst this
    simp [chunksF]
  | succ f ih =>
    intro gs hgs
    cases gs with
    | nil => simp [chunksF]
    | cons x gs' =>
      have hne : x :: gs' ≠ [] := by simp
      have hstep : chunksF (f + 1) (x :: gs') =
          (x :: gs').take GROUP_BATCH_SIZE :: chunksF f ((x :: gs').drop GROUP_BATCH_SIZE) := by
        rfl
      have hdroplen : ((x :: gs').drop GROUP_BATCH_SIZE).length ≤ f := by
        simp only [List.length_cons] at hgs
        simp only [List.length_drop, List.length_cons, GROUP_BATCH_SIZE]
        omega
      obtain ⟨ihj, ihb, ihd⟩ := ih _ hdroplen
      rw [hstep]
      refine ⟨by simp [ihj], ?_, ?_⟩
      · intro b hb
        rcases List.mem_cons.mp hb with rfl | hmem
        · refine ⟨?_, by simp [List.length_take]⟩
          apply List.ne_nil_of_length_pos
          simp only [List.length_take, List.length_cons, GROUP_BATCH_SIZE]
          omega
        · exact ihb b hmem
      · intro b hb
        cases hL : chunksF f ((x :: gs').drop GROUP_BATCH_SIZE) with
        | nil =>
          rw [hL] at hb
          simp [List.dropLast] at hb
        | cons c L' =>
          rw [hL] at hb
          simp only [List.dropLast] at hb
          rcases List.mem_cons.mp hb with rfl | hmem
          · have hdrop_ne : (x :: gs').drop GROUP_BATCH_SIZE ≠ [] := by
              intro hd
              rw [hd, chunksF_nil] at hL
              cases hL
            have : GROUP_BATCH_SIZE < (x :: gs').length := by
              by_contra hc
              exact hdrop_ne (List.drop_eq_nil_of_le (by omega))
            simp only [List.length_take]
            omega
          · apply ihd
            rw [hL]
            simpa [List.dropLast] using hmem

/-- C4 (counterexample): for the concrete SRT file with two one-entry
groups of fifteen clean characters each, the planner puts both groups into
a single batch whose estimated character count is thirty, exceeding the
configured constant `GROUP_BATCH_SIZE = 20`; since the batch holds two
groups, the single-oversized-group exception does not apply.  The code has
no character ceiling at all — batching counts groups, not characters. -/
theorem claim_C4_counterexample :
    (streamBatches c4File).length = 1 ∧
    ((streamBatches c4File).getD 0 []).length = 2 ∧
    GROUP_BATCH_SIZE < batchCharCount ((streamBatches c4File).getD 0 []) := by
  decide

/-- C4 (amended): the batch planner packs sentence groups by count: the
batches are consecutive runs whose concatenation restores the group
sequence, every batch is non-empty with at most `GROUP_BATCH_SIZE = 20`
groups, and every batch except possibly the last has exactly twenty.  No
character budget is enforced. -/
theorem claim_C4_batching (gs : List (List Subtitle)) :
    (planBatches gs).flatten = gs ∧
    (∀ b ∈ planBatches gs, b ≠ [] ∧ b.length ≤ GROUP_BATCH_SIZE) ∧
    (∀ b ∈ (planBatches gs).dropLast, b.length = GROUP_BATCH_SIZE) :=
  chunksF_spec gs.length gs (le_refl _)

/-- C4 (witness): the batch produced for the two-group file is a non-empty
batch of at most twenty groups. -/
theorem claim_C4_witness :
    ([[⟨1, ("00:00:01,000 --> 00:00:02,000".toList), [⟨("Aaaaaaaaaaaaaa.".toList), slotStr⟩]⟩],
      [⟨2, ("00:00:03,000 --> 00:00:04,000".toList), [⟨("Bbbbbbbbbbbbbb.".toList), slotStr⟩]⟩]] :
      List (List Subtitle)) ≠ [] ∧
    ([[⟨1, ("00:00:01,000 --> 00:00:02,000".toList), [⟨("Aaaaaaaaaaaaaa.".toList), slotStr⟩]⟩],
      [⟨2, ("00:00:03,000 --> 00:00:04,000".toList), [⟨("Bbbbbbbbbbbbbb.".toList), slotStr⟩]⟩]] :
      List (List Subtitle)).length ≤ GROUP_BATCH_SIZE :=
  (claim_C4_batching (group_subtitles_by_sentence (parse_srt c4File))).2.1 _ (by decide)

/-! ## Association-list map lemmas (claims C2, C3) -/

theorem keysOf_dictInsert (m : List (Nat × Str)) (k : Nat) (v : Str) :
    keysOf (dictInsert m k v) =
      if k ∈ keysOf m then keysOf m else keysOf m ++ [k] := by
  induction m with
  | nil => simp [keysOf, dictInsert]
  | cons p rest ih =>
    obtain ⟨k', v'⟩ := p
    by_cases hk : k' = k
    · subst hk
      simp [keysOf, dictInsert]
    · simp only [dictInsert, if_neg hk, keysOf, List.map_cons] at ih ⊢
      rw [ih]
      by_cases hmem : k ∈ List.map Prod.fst rest
      · simp [hmem, Ne.symm hk]
      · simp only [hmem, if_false]
        have : ¬ k ∈ k' :: List.map Prod.fst rest := by
          simp [hmem, Ne.symm hk]
        simp [this]

theorem mem_keysOf_dictInsert_iff (m : List (Nat × Str)) (k : Nat) (v : Str) (j : Nat) :
    j ∈ keysOf (dictInsert m k v) ↔ j ∈ keysOf m ∨ j = k := by
  rw [keysOf_dictInsert]
  split
  · constructor
    · exact Or.inl
    · rintro (h | rfl)
      · exact h
      · assumption
  · simp

theorem nodup_keysOf_dictInsert (m : List (Nat × Str)) (k : Nat) (v : Str)
    (h : (keysOf m).Nodup) : (keysOf (dictInsert m k v)).Nodup := by
  rw [keysOf_dictInsert]
  split
  · exact h
  · rw [List.nodup_append]
    refine ⟨h, List.nodup_singleton k, ?_⟩
    intro a ha hb
    rcases List.mem_singleton.mp hb with rfl
    exact absurd ha (by assumption)

theorem dictGet?_insert_self (m : List (Nat × Str)) (k : Nat) (v : Str) :
    dictGet? (dictInsert m k v) k = some v := by
  induction m with
  | nil => simp [dictInsert, dictGet?]
  | cons p rest ih =>
    obtain ⟨k', v'⟩ := p
    by_cases hk : k' = k
    · subst hk
      simp [dictInsert, dictGet?]
    · simp [dictInsert, dictGet?, hk, ih]

theorem dictGet?_insert_ne (m : List (Nat × Str)) (k : Nat) (v : Str) (j : Nat) (h : j ≠ k) :
    dictGet? (dictInsert m k v) j = dictGet? m j := by
  have hkj : ¬ k = j := fun hkj => h hkj.symm
  induction m with
  | nil => simp [dictInsert, dictGet?, hkj]
  | cons p rest ih =>
    obtain ⟨k', v'⟩ := p
    by_cases hk : k' = k
    · subst hk
      simp [dictInsert, dictGet?, hkj]
    · by_cases hj : k' = j
      · subst hj
        simp [dictInsert, hk, dictGet?]
      · simp [dictInsert, hk, dictGet?, hj, ih]

theorem dictMem_iff (m : List (Nat × Str)) (k : Nat) :
    dictMem m k = true ↔ k ∈ keysOf m := by
  simp [dictMem, keysOf, List.any_eq_true, beq_iff_eq, List.mem_map]

/-! ## Fold invariants for the translation map (claims C2, C3) -/

theorem foldl_dict_nodup {α : Type} (step : List (Nat × Str) → α → List (Nat × Str))
    (hstep : ∀ m a, (keysOf m).Nodup → (keysOf (step m a)).Nodup) :
    ∀ (l : List α) (m : List (Nat × Str)),
      (keysOf m).Nodup → (keysOf (l.foldl step m)).Nodup := by
  intro l
  induction l with
  | nil => intro m h; exact h
  | cons a l ih => intro m h; exact ih (step m a) (hstep m a h)

theorem foldl_dict_mem_mono {α : Type} (step : List (Nat × Str) → α → List (Nat × Str))
    (hstep : ∀ m a j, j ∈ keysOf m → j ∈ keysOf (step m a)) :
    ∀ (l : List α) (m : List (Nat × Str)) (j : Nat),
      j ∈ keysOf m → j ∈ keysOf (l.foldl step m) := by
  intro l
  induction l with
  | nil => intro m j h; exact h
  | cons a l ih => intro m j h; exact ih (step m a) j (hstep m a j h)

theorem origStep_nodup (m : List (Nat × Str)) (sub : Subtitle)
    (h : (keysOf m).Nodup) : (keysOf (origStep m sub)).Nodup :=
  nodup_keysOf_dictInsert _ _ _ h

theorem fillStep_nodup (orig m : List (Nat × Str)) (sub : Subtitle)
    (h : (keysOf m).Nodup) : (keysOf (fillStep orig m sub)).Nodup := by
  unfold fillStep
  split
  · exact h
  · exact nodup_keysOf_dictInsert _ _ _ h

theorem parseResponse_nodup (resp : Str) : (keysOf (parseResponse resp)).Nodup := by
  unfold parseResponse
  apply foldl_dict_nodup _ _ _ _ (by simp [keysOf])
  intro m a h
  split
  · exact h
  · split
    · split
      · exact h
      · exact nodup_keysOf_dictInsert _ _ _ h
    · exact h

theorem origFold_mem : ∀ (l : List Subtitle) (m : List (Nat × Str)) (sub : Subtitle),
    sub ∈ l → sub.index ∈ keysOf (l.foldl origStep m) := by
  intro l
  induction l with
  | nil => intro m sub h; cases h
  | cons a l ih =>
    intro m sub h
    rcases List.mem_cons.mp h with rfl | hmem
    · rw [List.foldl_cons]
      apply foldl_dict_mem_mono origStep
        (fun m a j hj => (mem_keysOf_dictInsert_iff _ _ _ _).mpr (Or.inl hj))
      exact (mem_keysOf_dictInsert_iff _ _ _ _).mpr (Or.inr rfl)
    · exact ih (origStep m a) sub hmem

theorem fillFold_mem (orig : List (Nat × Str)) :
    ∀ (l : List Subtitle) (m : List (Nat × Str)) (sub : Subtitle),
      sub ∈ l → sub.index ∈ keysOf (l.foldl (fillStep orig) m) := by
  intro l
  induction l with
  | nil => intro m sub h; cases h
  | cons a l ih =>
    intro m sub h
    have hmono : ∀ m a j, j ∈ keysOf m → j ∈ keysOf (fillStep orig m a) := by
      intro m a j hj
      unfold fillStep
      split
      · exact hj
      · exact (mem_keysOf_dictInsert_iff _ _ _ _).mpr (Or.inl hj)
    rcases List.mem_cons.mp h with rfl | hmem
    · rw [List.foldl_cons]
      apply foldl_dict_mem_mono (fillStep orig) hmono
      unfold fillStep
      split
      · exact (dictMem_iff _ _).mp (by assumption)
      · exact (mem_keysOf_dictInsert_iff _ _ _ _).mpr (Or.inr rfl)
    · exact ih (fillStep orig m a) sub hmem

theorem origFold_no_touch : ∀ (l : List Subtitle) (m : List (Nat × Str)) (j : Nat),
    (∀ s ∈ l, s.index ≠ j) → dictGet? (l.foldl origStep m) j = dictGet? m j := by
  intro l
  induction l with
  | nil => intro m j _; rfl
  | cons a l ih =>
    intro m j h
    rw [List.foldl_cons, ih (origStep m a) j (fun s hs => h s (List.mem_cons_of_mem a hs))]
    exact dictGet?_insert_ne m a.index _ j (fun hj => h a (List.mem_cons_self a l) hj.symm)

theorem origFold_lookup : ∀ (l : List Subtitle) (m : List (Nat × Str)),
    (l.map Subtitle.index).Nodup →
    (∀ s ∈ l, ¬ s.index ∈ keysOf m) →
    ∀ sub ∈ l, dictGet? (l.foldl origStep m) sub.index = some (subCleanJoined sub) := by
  intro l
  induction l with
  | nil => intro m _ _ sub h; cases h
  | cons a l ih =>
    intro m hnd hfresh sub h
    simp only [List.map_cons, List.nodup_cons] at hnd
    rcases List.mem_cons.mp h with rfl | hmem
    · rw [List.foldl_cons, origFold_no_touch l (origStep m sub) sub.index
        (fun s hs hj => hnd.1 (hj ▸ List.mem_map_of_mem Subtitle.index hs))]
      exact dictGet?_insert_self m sub.index (subCleanJoined sub)
    · refine ih (origStep m a) hnd.2 ?_ sub hmem
      intro s hs hmem'
      rcases (mem_keysOf_dictInsert_iff _ _ _ _).mp hmem' with hold | heq
      · exact hfresh s (List.mem_cons_of_mem a hs) hold
      · exact hnd.1 (heq ▸ List.mem_map_of_mem Subtitle.index hs)

/-! ## Translation-client theorems (claims C2, C3) -/

theorem translate_nodup (batch : List (List Subtitle)) (resp : Str) :
    (keysOf (translate_batch_of_groups_and_parse batch resp)).Nodup := by
  unfold translate_batch_of_groups_and_parse
  split
  · unfold buildOriginalMap
    rw [← List.foldl_flatten]
    exact foldl_dict_nodup origStep origStep_nodup _ _ (by simp [keysOf])
  · rw [← List.foldl_flatten]
    exact foldl_dict_nodup _ (fillStep_nodup _) _ _ (parseResponse_nodup resp)

theorem translate_covers (batch : List (List Subtitle)) (resp : Str)
    (g : List Subtitle) (hg : g ∈ batch) (sub : Subtitle) (hsub : sub ∈ g) :
    sub.index ∈ keysOf (translate_batch_of_groups_and_parse batch resp) := by
  have hflat : sub ∈ batch.flatten := List.mem_flatten.mpr ⟨g, hg, hsub⟩
  unfold translate_batch_of_groups_and_parse
  split
  · unfold buildOriginalMap
    rw [← List.foldl_flatten]
    exact origFold_mem _ _ _ hflat
  · rw [← List.foldl_flatten]
    exact fillFold_mem _ _ _ _ hflat

/-- C2: for every batch and every completion-service reply, the returned
map holds exactly one value for the index of every entry occurring in any
group of the batch — under the data-model precondition that entry indices
are unique, no index is missing and none is duplicated. -/
theorem claim_C2_coverage (batch : List (List Subtitle)) (resp : Str)
    (huniq : ((batch.flatten).map Subtitle.index).Nodup) :
    (keysOf (translate_batch_of_groups_and_parse batch resp)).Nodup ∧
    ∀ g ∈ batch, ∀ sub ∈ g,
      (keysOf (translate_batch_of_groups_and_parse batch resp)).count sub.index = 1 := by
  refine ⟨translate_nodup batch resp, ?_⟩
  intro g hg sub hsub
  exact List.count_eq_one_of_mem (translate_nodup batch resp)
    (translate_covers batch resp g hg sub hsub)

/-- C2 (witness): coverage instantiated at a one-entry batch and a reply
that only mentions an unrelated index. -/
theorem claim_C2_witness :
    (keysOf (translate_batch_of_groups_and_parse demoBatch ("junk\n[9] other".toList))).Nodup ∧
    (keysOf (translate_batch_of_groups_and_parse demoBatch ("junk\n[9] other".toList))).count 7 = 1 :=
  ⟨(claim_C2_coverage demoBatch ("junk\n[9] other".toList) (by decide)).1,
   (claim_C2_coverage demoBatch ("junk\n[9] other".toList) (by decide)).2
     [(⟨7, ("t".toList), [⟨("Hi.".toList), slotStr⟩]⟩ : Subtitle)] (by decide) (⟨7, ("t".toList), [⟨("Hi.".toList), slotStr⟩]⟩ : Subtitle) (by decide)⟩

/-- C3: when the completion-service reply is one of the four failure
sentinels (configuration missing, retry exhaustion, safety block, empty
response), every entry of the batch is mapped to its own original clean
text, the space-joined clean texts of its lines. -/
theorem claim_C3_fallback (batch : List (List Subtitle)) (resp : Str)
    (hfail : isFailureSentinel resp = true)
    (huniq : ((batch.flatten).map Subtitle.index).Nodup) :
    ∀ g ∈ batch, ∀ sub ∈ g,
      dictGet? (translate_batch_of_groups_and_parse batch resp) sub.index =
        some (subCleanJoined sub) := by
  intro g hg sub hsub
  have hflat : sub ∈ batch.flatten := List.mem_flatten.mpr ⟨g, hg, hsub⟩
  unfold translate_batch_of_groups_and_parse
  rw [if_pos hfail]
  unfold buildOriginalMap
  rw [← List.foldl_flatten]
  exact origFold_lookup batch.flatten [] huniq (by simp [keysOf]) sub hflat

/-- C3 (witness): the fallback map instantiated at a one-entry batch and
the retry-exhaustion sentinel. -/
theorem claim_C3_witness :
    dictGet? (translate_batch_of_groups_and_parse demoBatch failedSentinel) 7 =
      some (subCleanJoined ⟨7, ("t".toList), [⟨("Hi.".toList), slotStr⟩]⟩) :=
  claim_C3_fallback demoBatch failedSentinel (by decide) (by decide)
    [(⟨7, ("t".toList), [⟨("Hi.".toList), slotStr⟩]⟩ : Subtitle)] (by decide) (⟨7, ("t".toList), [⟨("Hi.".toList), slotStr⟩]⟩ : Subtitle) (by decide)

/-! ## Retry-loop theorems (claim C9) -/

theorem retryLoop_attempts_le (oracle : Nat → ApiOutcome) :
    ∀ (fuel attempt : Nat), (retryLoop oracle fuel attempt).attempts ≤ fuel := by
  intro fuel
  induction fuel with
  | zero => intro attempt; simp [retryLoop]
  | succ f ih =>
    intro attempt
    rcases h : oracle attempt with text | msg
    · simp only [retryLoop, h]
      split <;> simp
    · simp only [retryLoop, h]
      split
      · simp only [RetryResult.attempts]
        have := ih (attempt + 1)
        omega
      · split
        · simp
        · split
          · simp
          · simp only [RetryResult.attempts]
            have := ih (attempt + 1)
            omega

theorem retryLoop_429_step (oracle : Nat → ApiOutcome) (fuel attempt : Nat) (msg : Str)
    (h : oracle attempt = .err msg) (h429 : occB rateLimit429 msg = true)
    (hlt : attempt < MAX_RETRIES - 1) :
    retryLoop oracle (fuel + 1) attempt =
      ⟨(retryLoop oracle fuel (attempt + 1)).result,
       (retryLoop oracle fuel (attempt + 1)).attempts + 1,
       RATE_LIMIT_DELAY * 2 ^ attempt :: (retryLoop oracle fuel (attempt + 1)).delays⟩ := by
  conv_lhs => unfold retryLoop
  rw [h]
  simp [h429, hlt]

theorem retryLoop_safety_step (oracle : Nat → ApiOutcome) (fuel attempt : Nat) (msg : Str)
    (h : oracle attempt = .err msg) (hs : occB safetyMark msg = true)
    (hn : occB rateLimit429 msg = false ∨ ¬ attempt < MAX_RETRIES - 1) :
    retryLoop oracle (fuel + 1) attempt = ⟨safetySentinel, 1, []⟩ := by
  conv_lhs => unfold retryLoop
  rw [h]
  have hcond : (occB rateLimit429 msg && decide (attempt < MAX_RETRIES - 1)) = false := by
    rcases hn with hn | hn <;> simp [hn]
  simp [hcond, hs]

theorem retryLoop_final_step (oracle : Nat → ApiOutcome) (fuel : Nat) (msg : Str)
    (h : oracle (MAX_RETRIES - 1) = .err msg) (hs : occB safetyMark msg = false) :
    retryLoop oracle (fuel + 1) (MAX_RETRIES - 1) = ⟨failedSentinel, 1, []⟩ := by
  conv_lhs => unfold retryLoop
  rw [h]
  have hcond : (occB rateLimit429 msg && decide (MAX_RETRIES - 1 < MAX_RETRIES - 1)) = false := by
    simp
  simp [hcond, hs]

theorem retryLoop_generic_step (oracle : Nat → ApiOutcome) (fuel attempt : Nat) (msg : Str)
    (h : oracle attempt = .err msg) (h429 : occB rateLimit429 msg = false)
    (hs : occB safetyMark msg = false) (hne : attempt ≠ MAX_RETRIES - 1) :
    retryLoop oracle (fuel + 1) attempt =
      ⟨(retryLoop oracle fuel (attempt + 1)).result,
       (retryLoop oracle fuel (attempt + 1)).attempts + 1,
       2 :: (retryLoop oracle fuel (attempt + 1)).delays⟩ := by
  conv_lhs => unfold retryLoop
  rw [h]
  simp [h429, hs, hne]

/-- C9 (counterexample): for an oracle whose every attempt fails with a
message containing both `429` and `SAFETY`, the call does not return
immediately: the rate-limit branch takes priority, three attempts are made
with exponential delays 5 and 10, and only the final attempt returns the
safety sentinel — contradicting the claim that a safety-policy rejection
returns immediately without any further attempt. -/
theorem claim_C9_counterexample :
    api_call_with_retry true oracleBoth = ⟨safetySentinel, 3, [5, 10]⟩ ∧
    (api_call_with_retry true oracleBoth).attempts ≠ 1 := by
  constructor <;> decide

/-- C9 (amended): `api_call_with_retry` makes at most `MAX_RETRIES = 3`
attempts; a failure whose message contains `429` is retried after the
exponentially growing delay `5 * 2 ^ attempt` (and retry exhaustion returns
the failed sentinel after delays 5 and 10); a failure containing `SAFETY`
but not `429` returns the safety sentinel immediately after one attempt
with no delay; any other failure is retried after a fixed 2-second delay;
and when the message contains both `429` and `SAFETY`, the rate-limit
branch takes priority until the final attempt, which returns the safety
sentinel. -/
theorem claim_C9_retry :
    (∀ (configured : Bool) (oracle : Nat → ApiOutcome),
      (api_call_with_retry configured oracle).attempts ≤ MAX_RETRIES) ∧
    (∀ (oracle : Nat → ApiOutcome) (msg : Str), oracle 0 = .err msg →
      occB safetyMark msg = true → occB rateLimit429 msg = false →
      api_call_with_retry true oracle = ⟨safetySentinel, 1, []⟩) ∧
    (∀ oracle : Nat → ApiOutcome,
      (∀ k, k < MAX_RETRIES → ∃ msg, oracle k = .err msg ∧
        occB rateLimit429 msg = true ∧ occB safetyMark msg = false) →
      api_call_with_retry true oracle = ⟨failedSentinel, 3, [5, 10]⟩) ∧
    (∀ oracle : Nat → ApiOutcome,
      (∀ k, k < MAX_RETRIES → ∃ msg, oracle k = .err msg ∧
        occB rateLimit429 msg = false ∧ occB safetyMark msg = false) →
      api_call_with_retry true oracle = ⟨failedSentinel, 3, [2, 2]⟩) ∧
    (∀ oracle : Nat → ApiOutcome,
      (∀ k, k < MAX_RETRIES → ∃ msg, oracle k = .err msg ∧
        occB rateLimit429 msg = true ∧ occB safetyMark msg = true) →
      api_call_with_retry true oracle = ⟨safetySentinel, 3, [5, 10]⟩) := by
  refine ⟨?_, ?_, ?_, ?_, ?_⟩
  · intro configured oracle
    unfold api_call_with_retry
    split
    · exact retryLoop_attempts_le oracle MAX_RETRIES 0
    · simp [MAX_RETRIES]
  · intro oracle msg h hs h429
    have hstart : api_call_with_retry true oracle = retryLoop oracle (2 + 1) 0 := rfl
    rw [hstart, retryLoop_safety_step oracle 2 0 msg h hs (Or.inl h429)]
  · intro oracle h
    obtain ⟨m0, h0, h0r, h0s⟩ := h 0 (by decide)
    obtain ⟨m1, h1, h1r, h1s⟩ := h 1 (by decide)
    obtain ⟨m2, h2, h2r, h2s⟩ := h 2 (by decide)
    have hstart : api_call_with_retry true oracle = retryLoop oracle (2 + 1) 0 := rfl
    rw [hstart, retryLoop_429_step oracle 2 0 m0 h0 h0r (by decide)]
    have hf1 : retryLoop oracle 2 (0 + 1) = retryLoop oracle (1 + 1) 1 := rfl
    rw [hf1, retryLoop_429_step oracle 1 1 m1 h1 h1r (by decide)]
    have hf2 : retryLoop oracle 1 (1 + 1) = retryLoop oracle (0 + 1) (MAX_RETRIES - 1) := rfl
    rw [hf2, retryLoop_final_step oracle 0 m2 (by exact h2) h2s]
    rfl
  · intro oracle h
    obtain ⟨m0, h0, h0r, h0s⟩ := h 0 (by decide)
    obtain ⟨m1, h1, h1r, h1s⟩ := h 1 (by decide)
    obtain ⟨m2, h2, h2r, h2s⟩ := h 2 (by decide)
    have hstart : api_call_with_retry true oracle = retryLoop oracle (2 + 1) 0 := rfl
    rw [hstart, retryLoop_generic_step oracle 2 0 m0 h0 h0r h0s (by decide)]
    have hf1 : retryLoop oracle 2 (0 + 1) = retryLoop oracle (1 + 1) 1 := rfl
    rw [hf1, retryLoop_generic_step oracle 1 1 m1 h1 h1r h1s (by decide)]
    have hf2 : retryLoop oracle 1 (1 + 1) = retryLoop oracle (0 + 1) (MAX_RETRIES - 1) := rfl
    rw [hf2, retryLoop_final_step oracle 0 m2 (by exact h2) h2s]
  · intro oracle h
    obtain ⟨m0, h0, h0r, h0s⟩ := h 0 (by decide)
    obtain ⟨m1, h1, h1r, h1s⟩ := h 1 (by decide)
    obtain ⟨m2, h2, h2r, h2s⟩ := h 2 (by decide)
    have hstart : api_call_with_retry true oracle = retryLoop oracle (2 + 1) 0 := rfl
    rw [hstart, retryLoop_429_step oracle 2 0 m0 h0 h0r (by decide)]
    have hf1 : retryLoop oracle 2 (0 + 1) = retryLoop oracle (1 + 1) 1 := rfl
    rw [hf1, retryLoop_429_step oracle 1 1 m1 h1 h1r (by decide)]
    have hf2 : retryLoop oracle 1 (1 + 1) = retryLoop oracle (0 + 1) 2 := rfl
    rw [hf2, retryLoop_safety_step oracle 0 2 m2 h2 h2s (Or.inr (by decide))]
    rfl

/-- C9 (witness): the amended behaviours instantiated at three concrete
oracles — pure safety rejection, pure rate-limiting, and a generic
transient failure. -/
theorem claim_C9_witness :
    api_call_with_retry true oracleSafety = ⟨safetySentinel, 1, []⟩ ∧
    api_call_with_retry true oracle429 = ⟨failedSentinel, 3, [5, 10]⟩ ∧
    api_call_with_retry true oracleGeneric = ⟨failedSentinel, 3, [2, 2]⟩ :=
  ⟨claim_C9_retry.2.1 oracleSafety _ rfl (by decide) (by decide),
   claim_C9_retry.2.2.1 oracle429 (fun k _ => ⟨_, rfl, by decide, by decide⟩),
   claim_C9_retry.2.2.2.1 oracleGeneric (fun k _ => ⟨_, rfl, by decide, by decide⟩)⟩

/-! ## Display-mode theorems (claim C10) -/

/-- C10: the endpoint validation inspects only the target language and the
quality mode — any display-mode string is accepted whenever those two are
valid — and for a display mode outside the three known ones the per-entry
output chunk consists of exactly the index line and the time line, with no
subtitle text and no trailing blank line. -/
theorem claim_C10_display_mode :
    (∀ dm dm' tl qm : Str, validateRequest dm tl qm = validateRequest dm' tl qm) ∧
    (∀ dm tl qm : Str, tl ∈ SUPPORTED_LANGUAGES → qm ∈ QUALITY_MODES →
      validateRequest dm tl qm = none) ∧
    (∀ (sub : Subtitle) (tmap : List (Nat × Str)) (dm : Str) (fs : Option Nat)
      (sl : Bool) (ml : Nat),
      dm ≠ displayOnly → dm ≠ displayOrigAbove → dm ≠ displayTransAbove →
      buildChunk sub tmap dm fs sl ml = natRepr sub.index ++ ['\n'] ++ sub.time ++ ['\n']) := by
  refine ⟨fun dm dm' tl qm => rfl, ?_, ?_⟩
  · intro dm tl qm h1 h2
    unfold validateRequest
    rw [if_neg (not_not_intro h1), if_neg (not_not_intro h2)]
  · intro sub tmap dm fs sl ml hd1 hd2 hd3
    simp only [buildChunk]
    rw [if_neg hd1, if_neg hd2, if_neg hd3]

/-- C10 (witness): an unknown display mode passes validation for a valid
language and quality mode, and the chunk built for a concrete entry under
it is just the index and time lines. -/
theorem claim_C10_witness :
    validateRequest ("weird_mode".toList) ("Chinese".toList) ("标准".toList) = none ∧
    buildChunk ⟨7, ("t".toList), [⟨("Hi.".toList), slotStr⟩]⟩ [] ("weird_mode".toList)
      none true 40 = natRepr 7 ++ ['\n'] ++ ("t".toList) ++ ['\n'] :=
  ⟨claim_C10_display_mode.2.1 _ _ _ (by decide) (by decide),
   claim_C10_display_mode.2.2 _ _ _ _ _ _ (by decide) (by decide) (by decide)⟩

end SrtTranslate
